import Mathlib

/-!
Shallow embedding of a Hack-style two-stage assembler (tokenizer + encoder
pass over the characters, then a resolver pass over the emitted
partially-assembled instructions).  Strings are modelled as `List Char`
(exact for ASCII sources); the `HashMap` symbol table is modelled as an
association list where insertion prepends and lookup returns the most
recent binding; `u16`/`usize` values are modelled as `Nat` (programs large
enough to overflow a 16-bit address counter are outside the model);
panics are modelled as `Except.error`.
-/

namespace Asm

/-- Characters of a string literal, for writing concrete sources. -/
def str (s : String) : List Char := s.data

/-- ASCII whitespace test used by `trim` (Rust `char::is_whitespace` on
ASCII input). -/
def isWsChar (c : Char) : Bool :=
  c = ' ' || c = '\t' || c = '\n' || c = '\r'

/-- Rust `str::trim`: drop whitespace from both ends. -/
def trim (l : List Char) : List Char :=
  ((l.dropWhile isWsChar).reverse.dropWhile isWsChar).reverse

/-- Numeric value of a digit string, most significant first. -/
def natOfDigits (l : List Char) : Nat :=
  l.foldl (fun a c => a * 10 + (c.toNat - 48)) 0

/-- Rust `str::parse::<usize>` on a 64-bit target: an optional leading
`+`, then one or more ASCII digits, value below `2 ^ 64`; anything else
(including overflow) fails. -/
def parseUsize (l : List Char) : Option Nat :=
  let digits := match l with
    | '+' :: r => r
    | _ => l
  if digits ≠ [] ∧ digits.all (fun c => c.isDigit) then
    let v := natOfDigits digits
    if v < 2 ^ 64 then some v else none
  else none

inductive AssemblerState where
  | LookingForInstruction
  | OneSlash
  | Comment
deriving DecidableEq

inductive PartiallyAssembledInstruction where
  | Complete (w : Nat)
  | SymbolicAddress (s : List Char)
deriving DecidableEq

/-- The `HashMap<String, u16>` symbol table as an association list:
insertion prepends, lookup takes the most recent binding. -/
def SymTable : Type := List (List Char × Nat)

instance : DecidableEq SymTable := by
  unfold SymTable
  infer_instance

/-- Lookup in the association-list model of the hash map. -/
def tlookup (s : List Char) : SymTable → Option Nat
  | [] => none
  | (k, v) :: r => if k = s then some v else tlookup s r

/-- `predefined_symbol_table` from the source: the seven architectural
symbols plus `R0`..`R15`. -/
def predefined_symbol_table : SymTable :=
  [(str "SP", 0), (str "LCL", 1), (str "ARG", 2), (str "THIS", 3),
   (str "THAT", 4), (str "SCREEN", 0x4000), (str "KBD", 0x6000)]
  ++ (List.range 16).map (fun r => ('R' :: Nat.toDigits 10 r, r))

structure Assembler where
  state : AssemblerState
  instruction_buffer : List Char
  symbol_table : SymTable
  extra_data_address : Nat
  output : List PartiallyAssembledInstruction
deriving DecidableEq

/-- `Assembler::new`. -/
def Assembler.new : Assembler :=
  { state := .LookingForInstruction
    instruction_buffer := []
    symbol_table := predefined_symbol_table
    extra_data_address := 0b10000
    output := [] }

/-- `assemble_a_type_instruction`: strip the `@`, try to parse a numeral,
push either a completed word or a symbolic placeholder. -/
def assemble_a_type_instruction (st : Assembler) : Except String Assembler :=
  let symbol_or_value := (trim st.instruction_buffer).drop 1
  match parseUsize symbol_or_value with
  | some value =>
    if value > 0b0111111111111111 then
      .error "The value is too big to use in an A instruction."
    else
      .ok { st with output := st.output ++ [.Complete value] }
  | none =>
    .ok { st with output := st.output ++ [.SymbolicAddress symbol_or_value] }

/-- First-occurrence split: `instruction.find(c)` together with the two
byte slices `[..index]` and `[index + 1..]`. -/
def splitOnFirst (ch : Char) : List Char → Option (List Char × List Char)
  | [] => none
  | c :: r =>
    if c = ch then some ([], r)
    else match splitOnFirst ch r with
      | some (a, b) => some (c :: a, b)
      | none => none

/-- The dest bits: `M` sets bit 0, `D` sets bit 1, `A` sets bit 2. -/
def destBits (dest_name : List Char) : Nat :=
  (if dest_name.contains 'M' then 0b1 else 0) |||
  (if dest_name.contains 'D' then 0b10 else 0) |||
  (if dest_name.contains 'A' then 0b100 else 0)

/-- The jump table of `assemble_c_type_instruction`; `none` models the
panic on an unknown jump code. -/
def jmpBits : List Char → Option Nat
  | ['n', 'u', 'l', 'l'] => some 0b000
  | ['J', 'G', 'T'] => some 0b001
  | ['J', 'E', 'Q'] => some 0b010
  | ['J', 'G', 'E'] => some 0b011
  | ['J', 'L', 'T'] => some 0b100
  | ['J', 'N', 'E'] => some 0b101
  | ['J', 'L', 'E'] => some 0b110
  | ['J', 'M', 'P'] => some 0b111
  | _ => none

/-- The 28-entry computation table; bit 6 is the a-bit, set exactly on
the forms using `M`.  `none` models the panic on an invalid opcode. -/
def compBits : List Char → Option Nat
  | ['0'] => some 0b0101010
  | ['1'] => some 0b0111111
  | ['-', '1'] => some 0b0111010
  | ['D'] => some 0b0001100
  | ['A'] => some 0b0110000
  | ['!', 'D'] => some 0b0001101
  | ['!', 'A'] => some 0b0110001
  | ['-', 'D'] => some 0b0001111
  | ['-', 'A'] => some 0b0110011
  | ['D', '+', '1'] => some 0b0011111
  | ['A', '+', '1'] => some 0b0110111
  | ['D', '-', '1'] => some 0b0001110
  | ['A', '-', '1'] => some 0b0110010
  | ['D', '+', 'A'] => some 0b0000010
  | ['D', '-', 'A'] => some 0b0010011
  | ['A', '-', 'D'] => some 0b0000111
  | ['D', '&', 'A'] => some 0b0000000
  | ['D', '|', 'A'] => some 0b0010101
  | ['M'] => some 0b1110000
  | ['!', 'M'] => some 0b1110001
  | ['-', 'M'] => some 0b1110011
  | ['M', '+', '1'] => some 0b1110111
  | ['M', '-', '1'] => some 0b1110010
  | ['D', '+', 'M'] => some 0b1000010
  | ['D', '-', 'M'] => some 0b1010011
  | ['M', '-', 'D'] => some 0b1000111
  | ['D', '&', 'M'] => some 0b1000000
  | ['D', '|', 'M'] => some 0b1010101
  | _ => none

/-- The word computed by `assemble_c_type_instruction` from the raw
instruction buffer: trim, split off the dest field at the first `=`,
split off the jump field at the first `;`, look up the computation. -/
def assemble_c_type_word (buf : List Char) : Except String Nat :=
  let instruction := trim buf
  let afterDest : Nat × List Char :=
    match splitOnFirst '=' instruction with
    | some (dest_name, rest) => (destBits dest_name, rest)
    | none => (0, instruction)
  let dest := afterDest.1
  let afterJmp : Except String (Nat × List Char) :=
    match splitOnFirst ';' afterDest.2 with
    | some (before, jmp_name) =>
      match jmpBits jmp_name with
      | some j => .ok (j, before)
      | none => .error "not a valid jump code"
    | none => .ok (0, afterDest.2)
  match afterJmp with
  | .error e => .error e
  | .ok (jmp, rest) =>
    match compBits rest with
    | some comp => .ok (0b1110000000000000 ||| comp <<< 6 ||| dest <<< 3 ||| jmp)
    | none => .error "is an invalid opcode"

/-- `assemble_c_type_instruction`: push the computed word. -/
def assemble_c_type_instruction (st : Assembler) : Except String Assembler :=
  match assemble_c_type_word st.instruction_buffer with
  | .ok w => .ok { st with output := st.output ++ [.Complete w] }
  | .error e => .error e

/-- `assemble_instruction`: dispatch on the first character of the
trimmed buffer (`@` → A-type, `(` → label binding to the current output
length, otherwise C-type), then clear the buffer.  A one-character `(`
line reproduces the Rust byte-slice panic `&trimmed[1..0]`. -/
def assemble_instruction (st : Assembler) : Except String Assembler :=
  let trimmed := trim st.instruction_buffer
  match trimmed with
  | [] => .ok { st with instruction_buffer := [] }
  | first :: _ =>
    if first = '@' then
      match assemble_a_type_instruction st with
      | .ok st1 => .ok { st1 with instruction_buffer := [] }
      | .error e => .error e
    else if first = '(' then
      if trimmed.length = 1 then
        .error "slice index starts at 1 but ends at 0"
      else
        .ok { st with
              symbol_table :=
                ((trimmed.drop 1).dropLast, st.output.length) :: st.symbol_table
              instruction_buffer := [] }
    else
      match assemble_c_type_instruction st with
      | .ok st1 => .ok { st1 with instruction_buffer := [] }
      | .error e => .error e

/-- One character of the tokenizer state machine in `assemble_source`. -/
def stepChar (st : Assembler) (c : Char) : Except String Assembler :=
  match st.state with
  | .LookingForInstruction =>
    if c = '/' then .ok { st with state := .OneSlash }
    else if c = '\n' then assemble_instruction st
    else .ok { st with instruction_buffer := st.instruction_buffer ++ [c] }
  | .OneSlash =>
    if c = '/' then .ok { st with state := .Comment }
    else
      .ok { st with
            state := .LookingForInstruction
            instruction_buffer := st.instruction_buffer ++ ['/', c] }
  | .Comment =>
    if c = '\n' then
      match assemble_instruction st with
      | .ok st1 => .ok { st1 with state := .LookingForInstruction }
      | .error e => .error e
    else .ok st

/-- The encoder pass: fold `stepChar` over the whole character stream. -/
def encode (st : Assembler) : List Char → Except String Assembler
  | [] => .ok st
  | c :: r =>
    match stepChar st c with
    | .ok st1 => encode st1 r
    | .error e => .error e

/-- `finalize_instruction`: a completed word passes through; a symbolic
address is looked up, or bound to the next free data address. -/
def finalize_instruction (t : SymTable) (c : Nat) :
    PartiallyAssembledInstruction → Nat × SymTable × Nat
  | .Complete v => (v, t, c)
  | .SymbolicAddress s =>
    match tlookup s t with
    | some v => (v, t, c)
    | none => (c, (s, c) :: t, c + 1)

/-- `finalize`: resolve the emitted instructions left to right, threading
the symbol table and the data-address counter. -/
def finalize : List PartiallyAssembledInstruction → SymTable → Nat →
    List Nat × SymTable × Nat
  | [], t, c => ([], t, c)
  | i :: r, t, c =>
    let step := finalize_instruction t c i
    let rest := finalize r step.2.1 step.2.2
    (step.1 :: rest.1, rest.2.1, rest.2.2)

/-- `assemble_source`: run the encoder over every character, flush the
final instruction buffer, then run the resolver. -/
def assemble_source (st : Assembler) (source : List Char) :
    Except String (List Nat) :=
  match encode st source with
  | .error e => .error e
  | .ok st1 =>
    match assemble_instruction st1 with
    | .error e => .error e
    | .ok st2 =>
      .ok (finalize st2.output st2.symbol_table st2.extra_data_address).1

/-- `assemble`: whole pipeline from raw source text. -/
def assemble (source : List Char) : Except String (List Nat) :=
  assemble_source Assembler.new source

deriving instance DecidableEq for Except

/-- The distinct symbols of an instruction list that are unbound in the
given table, in order of first reference (used to state what the resolver
allocates). -/
def firstRefs : List PartiallyAssembledInstruction → SymTable → List (List Char)
  | [], _ => []
  | .Complete _ :: r, t => firstRefs r t
  | .SymbolicAddress s :: r, t =>
    match tlookup s t with
    | some _ => firstRefs r t
    | none => s :: firstRefs r ((s, 0) :: t)

/-- Index of the first occurrence (length when absent). -/
def idxOf (s : List Char) : List (List Char) → Nat
  | [] => 0
  | x :: r => if x = s then 0 else idxOf s r + 1

/-- The address the spec assigns to one instruction: bound symbols keep
their address, unbound symbols get `base + position in first-reference
order`. -/
def resolveSpec (t : SymTable) (c : Nat) (frs : List (List Char)) :
    PartiallyAssembledInstruction → Nat
  | .Complete w => w
  | .SymbolicAddress s =>
    match tlookup s t with
    | some v => v
    | none => c + idxOf s frs

end Asm

namespace Asm

theorem tlookup_cons (k : List Char) (v : Nat) (t : SymTable) (s : List Char) :
    tlookup s ((k, v) :: t) = if k = s then some v else tlookup s t := rfl

/-- The resolver never changes an existing binding: lookups that
succeeded before `finalize` still return the same address after it. -/
theorem finalize_table_preserves (l : List PartiallyAssembledInstruction) :
    ∀ t c s a, tlookup s t = some a → tlookup s (finalize l t c).2.1 = some a := by
  induction l with
  | nil => intro t c s a h; simpa [finalize] using h
  | cons i r ih =>
    intro t c s a h
    cases i with
    | Complete w =>
      simpa [finalize, finalize_instruction] using ih t c s a h
    | SymbolicAddress s2 =>
      cases hl : tlookup s2 t with
      | some v =>
        simpa [finalize, finalize_instruction, hl] using ih t c s a h
      | none =>
        have hne : s2 ≠ s := by
          intro he
          rw [he, h] at hl
          cases hl
        simp only [finalize, finalize_instruction, hl]
        apply ih
        rw [tlookup_cons, if_neg hne]
        exact h

/-- Every occurrence of a symbol already bound before `finalize` resolves
to that bound address. -/
theorem finalize_resolves_bound (l : List PartiallyAssembledInstruction)
    (s : List Char) (a : Nat) :
    ∀ t c, tlookup s t = some a → ∀ i,
      l.get? i = some (.SymbolicAddress s) →
      (finalize l t c).1.get? i = some a := by
  induction l with
  | nil => intro t c _ i h; simp [List.get?] at h
  | cons x r ih =>
    intro t c h i hi
    cases i with
    | zero =>
      simp only [List.get?] at hi
      cases hi
      simp [finalize, finalize_instruction, h]
    | succ j =>
      simp only [List.get?] at hi
      cases x with
      | Complete w =>
        simpa [finalize, finalize_instruction] using ih t c h j hi
      | SymbolicAddress s2 =>
        cases hl : tlookup s2 t with
        | some v =>
          simpa [finalize, finalize_instruction, hl] using ih t c h j hi
        | none =>
          have hne : s2 ≠ s := by
            intro he
            rw [he, h] at hl
            cases hl
          simp only [finalize, finalize_instruction, hl]
          have h2 : tlookup s ((s2, c) :: t) = some a := by
            rw [tlookup_cons, if_neg hne]; exact h
          simpa using ih ((s2, c) :: t) (c + 1) h2 j hi

/-- `firstRefs` only depends on which symbols are bound, not on their
addresses. -/
theorem firstRefs_congr (l : List PartiallyAssembledInstruction) :
    ∀ t1 t2 : SymTable,
      (∀ s, (tlookup s t1).isSome = (tlookup s t2).isSome) →
      firstRefs l t1 = firstRefs l t2 := by
  induction l with
  | nil => intro t1 t2 _; rfl
  | cons x r ih =>
    intro t1 t2 h
    cases x with
    | Complete w => simpa [firstRefs] using ih t1 t2 h
    | SymbolicAddress s =>
      have hs := h s
      cases h1 : tlookup s t1 with
      | some v =>
        cases h2 : tlookup s t2 with
        | some v2 => simpa [firstRefs, h1, h2] using ih t1 t2 h
        | none => rw [h1, h2] at hs; simp at hs
      | none =>
        cases h2 : tlookup s t2 with
        | some v2 => rw [h1, h2] at hs; simp at hs
        | none =>
          have h3 : ∀ s3, (tlookup s3 ((s, 0) :: t1)).isSome =
              (tlookup s3 ((s, 0) :: t2)).isSome := by
            intro s3
            rw [tlookup_cons, tlookup_cons]
            by_cases he : s = s3
            · simp [he]
            · simpa [he] using h s3
          simpa [firstRefs, h1, h2] using ih _ _ h3

/-- The words produced by the resolver are exactly the spec-side
resolution: bound symbols keep their address, unbound symbols get the
base data address plus their position in first-reference order. -/
theorem finalize_words_eq_spec (l : List PartiallyAssembledInstruction) :
    ∀ t c, (finalize l t c).1 = l.map (resolveSpec t c (firstRefs l t)) := by
  induction l with
  | nil => intro t c; rfl
  | cons x r ih =>
    intro t c
    cases x with
    | Complete w =>
      simp [finalize, finalize_instruction, firstRefs, resolveSpec, ih t c]
    | SymbolicAddress s =>
      cases hl : tlookup s t with
      | some v =>
        simp [finalize, finalize_instruction, firstRefs, resolveSpec, hl, ih t c]
      | none =>
        have hfr : firstRefs r ((s, 0) :: t) = firstRefs r ((s, c) :: t) := by
          apply firstRefs_congr
          intro s3
          rw [tlookup_cons, tlookup_cons]
          by_cases he : s = s3 <;> simp [he]
        have hfun : ∀ pi, resolveSpec t c (s :: firstRefs r ((s, 0) :: t)) pi =
            resolveSpec ((s, c) :: t) (c + 1) (firstRefs r ((s, c) :: t)) pi := by
          intro pi
          cases pi with
          | Complete w => rfl
          | SymbolicAddress s3 =>
            by_cases he : s = s3
            · subst he
              simp [resolveSpec, hl, tlookup_cons, idxOf]
            · cases h3 : tlookup s3 t with
              | some v =>
                simp [resolveSpec, h3, tlookup_cons, he]
              | none =>
                simp only [resolveSpec, h3, tlookup_cons, if_neg he, idxOf, hfr]
                omega
        have hmap : r.map (resolveSpec t c (s :: firstRefs r ((s, 0) :: t))) =
            r.map (resolveSpec ((s, c) :: t) (c + 1) (firstRefs r ((s, c) :: t))) := by
          rw [funext hfun]
        simp [finalize, finalize_instruction, firstRefs, resolveSpec, hl,
          ih ((s, c) :: t) (c + 1), idxOf, hmap]

theorem splitOnFirst_append (ch : Char) (l1 l2 : List Char) (h : ch ∉ l1) :
    splitOnFirst ch (l1 ++ ch :: l2) = some (l1, l2) := by
  induction l1 with
  | nil => simp [splitOnFirst]
  | cons c r ih =>
    have hc : ¬c = ch := fun he => h (by simp [he])
    have hr : ch ∉ r := fun hm => h (List.mem_cons_of_mem _ hm)
    simp [splitOnFirst, hc, ih hr]

theorem splitOnFirst_not_mem (ch : Char) (l : List Char) (h : ch ∉ l) :
    splitOnFirst ch l = none := by
  induction l with
  | nil => rfl
  | cons c r ih =>
    have hc : ¬c = ch := fun he => h (by simp [he])
    have hr : ch ∉ r := fun hm => h (List.mem_cons_of_mem _ hm)
    simp [splitOnFirst, hc, ih hr]

end Asm

namespace Asm

/-- C7: blank lines and `//` comments never affect the emitted words:
`@5 // comment`, `@5`, and `  @5  ` surrounded by blank lines each
produce exactly the word 5, and a source of only blanks and comments
produces no words. -/
theorem comment_whitespace_insensitivity :
    assemble (str "@5 // comment\n") = .ok [5]
    ∧ assemble (str "@5\n") = .ok [5]
    ∧ assemble (str "\n  @5  \n\n") = .ok [5]
    ∧ assemble (str "// only a comment\n\n   \n// another\n") = .ok [] := by
  refine ⟨by decide, by decide, by decide, by decide⟩

/-- C8: in the `OneSlash` state, a second `/` moves to `Comment` without
touching the instruction buffer, while any other character (newline
included) appends the pending `/` and that character and returns to
`LookingForInstruction`, with no flush of the buffer. -/
theorem one_slash_state_step (st : Assembler) (c : Char)
    (h : st.state = AssemblerState.OneSlash) :
    (stepChar st '/' = .ok { st with state := .Comment })
    ∧ (c ≠ '/' → stepChar st c = .ok { st with
        state := .LookingForInstruction
        instruction_buffer := st.instruction_buffer ++ ['/', c] }) := by
  constructor
  · simp [stepChar, h]
  · intro hc
    simp [stepChar, h, hc]

/-- C8 witness: the two transitions at a concrete `OneSlash` state. -/
theorem one_slash_state_step_witness :
    (stepChar { Assembler.new with state := .OneSlash } '/' =
      .ok { Assembler.new with state := .Comment })
    ∧ (stepChar { Assembler.new with state := .OneSlash } 'x' =
      .ok { Assembler.new with
            state := .LookingForInstruction
            instruction_buffer := ['/', 'x'] }) :=
  ⟨(one_slash_state_step { Assembler.new with state := .OneSlash } 'x' rfl).1,
   (one_slash_state_step { Assembler.new with state := .OneSlash } 'x' rfl).2
     (by decide)⟩

/-- C9: entering `OneSlash` never appends the consumed `/`; the
end-of-input flush just assembles the buffer of the final encoder state,
so a source ending with a pending `/` has that slash silently dropped;
concretely `@5/` still assembles to the word 5. -/
theorem eof_pending_slash_discarded :
    (∀ st : Assembler, st.state = AssemblerState.LookingForInstruction →
      stepChar st '/' = .ok { st with state := .OneSlash })
    ∧ (∀ (src : List Char) (st1 : Assembler),
        encode Assembler.new src = .ok st1 →
        assemble src = match assemble_instruction st1 with
          | .ok st2 =>
            .ok (finalize st2.output st2.symbol_table st2.extra_data_address).1
          | .error e => .error e)
    ∧ (encode Assembler.new (str "@5/")).toOption.map (fun st => st.state) =
        some AssemblerState.OneSlash
    ∧ (encode Assembler.new (str "@5/")).toOption.map
        (fun st => st.instruction_buffer) = some (str "@5")
    ∧ assemble (str "@5/") = .ok [5] := by
  refine ⟨?_, ?_, by decide, by decide, by decide⟩
  · intro st h
    simp [stepChar, h]
  · intro src st1 h
    unfold assemble assemble_source
    rw [h]
    cases hh : assemble_instruction st1 <;> simp [hh]

/-- C9 witness: the general parts applied at a concrete state and
source. -/
theorem eof_pending_slash_discarded_witness :
    (stepChar Assembler.new '/' = .ok { Assembler.new with state := .OneSlash })
    ∧ (assemble (str "@5") = match assemble_instruction
        { Assembler.new with instruction_buffer := str "@5" } with
        | .ok st2 =>
          .ok (finalize st2.output st2.symbol_table st2.extra_data_address).1
        | .error e => .error e) :=
  ⟨eof_pending_slash_discarded.1 Assembler.new rfl,
   eof_pending_slash_discarded.2.1 (str "@5")
     { Assembler.new with instruction_buffer := str "@5" } (by decide)⟩

/-- C10 (amended): for every trimmed buffer of length at least two whose
first character is `(`, the bound symbol is exactly the text strictly
between the first and last characters — the last character is never
checked to be `)` — the binding address is the current output length,
and no instruction is emitted. -/
theorem label_binds_interior_text (st : Assembler) (s : List Char)
    (h : trim st.instruction_buffer = '(' :: s) (hs : s ≠ []) :
    assemble_instruction st = .ok { st with
      symbol_table := (s.dropLast, st.output.length) :: st.symbol_table
      instruction_buffer := [] } := by
  have h1 : ('(' : Char) ≠ '@' := by decide
  simp [assemble_instruction, h, h1, hs]

/-- C10 witness: the malformed label line `(FOO` silently binds `FO` at
address 0 and emits nothing. -/
theorem label_binds_interior_text_witness :
    assemble_instruction { Assembler.new with instruction_buffer := str "(FOO" } =
      .ok { Assembler.new with
            symbol_table := (str "FO", 0) :: predefined_symbol_table
            instruction_buffer := [] } :=
  label_binds_interior_text
    { Assembler.new with instruction_buffer := str "(FOO" }
    (str "FOO") (by decide) (by decide)

/-- C10 counterexample: a lone `(` line does not silently bind a symbol;
it reproduces the byte-slice panic `&trimmed[1..0]` and aborts the
translation. -/
theorem lone_paren_aborts :
    assemble (str "(\n") = .error "slice index starts at 1 but ends at 0" := by
  decide

end Asm

namespace Asm

/-- C1: a label line binds its symbol to the current output length, i.e.
the index of the instruction that follows; once a symbol is bound in the
table, the resolver returns that address for every occurrence and never
allocates a variable address for it (the table entry survives
resolution); concretely a forward reference `@LOOP` before `(LOOP)`
resolves to the label address 2, not to a fresh variable address. -/
theorem forward_label_resolution :
    (∀ (st : Assembler) (s : List Char),
      trim st.instruction_buffer = '(' :: s ++ [')'] →
      assemble_instruction st = .ok { st with
        symbol_table := (s, st.output.length) :: st.symbol_table
        instruction_buffer := [] })
    ∧ (∀ (l : List PartiallyAssembledInstruction) (t : SymTable) (c : Nat)
        (s : List Char) (a : Nat), tlookup s t = some a →
        (∀ i, l.get? i = some (.SymbolicAddress s) →
          (finalize l t c).1.get? i = some a)
        ∧ tlookup s (finalize l t c).2.1 = some a)
    ∧ assemble (str "@LOOP\n@1\n(LOOP)\n@2\n") = .ok [2, 1, 2] := by
  refine ⟨?_, ?_, by decide⟩
  · intro st s h
    have h1 : ('(' : Char) ≠ '@' := by decide
    simp [assemble_instruction, h, h1, List.dropLast_concat]
  · intro l t c s a h
    exact ⟨finalize_resolves_bound l s a t c h, finalize_table_preserves l t c s a h⟩

/-- C1 witness: `(LOOP)` binds LOOP to the output length, and a bound
symbol resolves to its bound address. -/
theorem forward_label_resolution_witness :
    (assemble_instruction { Assembler.new with instruction_buffer := str "(LOOP)" } =
      .ok { Assembler.new with
            symbol_table := (str "LOOP", 0) :: predefined_symbol_table
            instruction_buffer := [] })
    ∧ (finalize [.SymbolicAddress (str "END")]
        ((str "END", 9) :: predefined_symbol_table) 16).1.get? 0 = some 9 := by
  constructor
  · exact forward_label_resolution.1
      { Assembler.new with instruction_buffer := str "(LOOP)" } (str "LOOP")
      (by decide)
  · exact (forward_label_resolution.2.1 [.SymbolicAddress (str "END")]
      ((str "END", 9) :: predefined_symbol_table) 16 (str "END") 9
      (by decide)).1 0 (by decide)

/-- C4 (amended): the resolver never rebinds: a symbol bound before
`finalize` keeps its address through the whole resolution pass, and every
occurrence resolves to that address.  (A later label pseudo-instruction,
by contrast, can overwrite an existing binding — see the
counterexample.) -/
theorem resolver_never_rebinds (l : List PartiallyAssembledInstruction)
    (t : SymTable) (c : Nat) (s : List Char) (a : Nat)
    (h : tlookup s t = some a) :
    (∀ i, l.get? i = some (.SymbolicAddress s) →
      (finalize l t c).1.get? i = some a)
    ∧ tlookup s (finalize l t c).2.1 = some a :=
  ⟨finalize_resolves_bound l s a t c h, finalize_table_preserves l t c s a h⟩

/-- C4 witness: SP stays bound to 0 across a resolution that allocates a
fresh variable. -/
theorem resolver_never_rebinds_witness :
    tlookup (str "SP")
      (finalize [.SymbolicAddress (str "x")] predefined_symbol_table 16).2.1 =
      some 0 :=
  (resolver_never_rebinds [.SymbolicAddress (str "x")] predefined_symbol_table
    16 (str "SP") 0 (by decide)).2

/-- C4 counterexample: a label pseudo-instruction does rebind an
already-bound symbol to a different address: `L` is bound to 0 by the
first `(L)` and rebound to 1 by the second, and `@L` then resolves to
the new address 1. -/
theorem label_rebinding_counterexample :
    (encode Assembler.new (str "(L)\n")).toOption.map
      (fun st => tlookup (str "L") st.symbol_table) = some (some 0)
    ∧ (encode Assembler.new (str "(L)\n@0\n(L)\n")).toOption.map
      (fun st => tlookup (str "L") st.symbol_table) = some (some 1)
    ∧ assemble (str "(L)\n@0\n(L)\n@L\n") = .ok [0, 1] := by
  refine ⟨by decide, by decide, by decide⟩

/-- C5 (amended): the construction-time table maps SP,LCL,ARG,THIS,THAT
to 0..4, SCREEN to 16384, KBD to 24576 and R0..R15 to 0..15, and any
symbol still bound to an address when the resolver runs resolves to that
address at every use — so the predefined meanings hold for every program
whose labels do not rebind those names. -/
theorem predefined_symbols_resolve :
    (tlookup (str "SP") predefined_symbol_table = some 0
     ∧ tlookup (str "LCL") predefined_symbol_table = some 1
     ∧ tlookup (str "ARG") predefined_symbol_table = some 2
     ∧ tlookup (str "THIS") predefined_symbol_table = some 3
     ∧ tlookup (str "THAT") predefined_symbol_table = some 4
     ∧ tlookup (str "SCREEN") predefined_symbol_table = some 16384
     ∧ tlookup (str "KBD") predefined_symbol_table = some 24576
     ∧ ∀ r < 16, tlookup ('R' :: Nat.toDigits 10 r) predefined_symbol_table =
         some r)
    ∧ (∀ (st : Assembler) (s : List Char) (v : Nat),
        tlookup s st.symbol_table = some v →
        ∀ i, st.output.get? i = some (.SymbolicAddress s) →
        (finalize st.output st.symbol_table st.extra_data_address).1.get? i =
          some v) := by
  constructor
  · exact by decide
  · intro st s v h i hi
    exact finalize_resolves_bound st.output s v st.symbol_table
      st.extra_data_address h i hi

/-- C5 witness: a reference to KBD resolves to 24576. -/
theorem predefined_symbols_resolve_witness :
    (finalize [.Complete 0, .SymbolicAddress (str "KBD")]
      predefined_symbol_table 16).1.get? 1 = some 24576 :=
  predefined_symbols_resolve.2
    { Assembler.new with output := [.Complete 0, .SymbolicAddress (str "KBD")] }
    (str "KBD") 24576 (by decide) 1 (by decide)

/-- C5 counterexample: the resolution of `@SP` is not 0 in every program:
a label `(SP)` rebinds it, and `@SP` then emits 1. -/
theorem predefined_shadowing_counterexample :
    tlookup (str "SP") predefined_symbol_table = some 0
    ∧ assemble (str "@0\n(SP)\n@SP\n") = .ok [0, 1] :=
  ⟨by decide, by decide⟩

/-- C6: unbound symbols get data addresses in strict first-reference
order starting at the initial counter 16, one per new symbol, repeated
references resolving to the same address: the resolver's words are
exactly the spec-side resolution by position in first-reference order,
and `@foo @bar @foo` yields 16, 17, 16. -/
theorem variable_allocation_order :
    Assembler.new.extra_data_address = 16
    ∧ (∀ (l : List PartiallyAssembledInstruction) (t : SymTable) (c : Nat),
        (finalize l t c).1 = l.map (resolveSpec t c (firstRefs l t)))
    ∧ assemble (str "@foo\n@bar\n@foo\n") = .ok [16, 17, 16] :=
  ⟨rfl, finalize_words_eq_spec, by decide⟩

end Asm

namespace Asm

/-- C2: for each of the four syntactic shapes (with/without `=` dest,
with/without `;` jump) the emitted word is
`0b111_0000000000000 ||| comp <<< 6 ||| dest <<< 3 ||| jmp`, with the
dest bits from `M`/`D`/`A` membership of the text before `=` (0 with no
`=`), the jump code from the fixed table (0 with no `;`), and the
computation from the fixed 28-entry table; concretely `D=D+A;JGT`
assembles to `1110000010010001`. -/
theorem c_type_encoding :
    (∀ (d c j : List Char) (cb jb : Nat),
      '=' ∉ d → ';' ∉ c → compBits c = some cb → jmpBits j = some jb →
      trim (d ++ '=' :: (c ++ ';' :: j)) = d ++ '=' :: (c ++ ';' :: j) →
      assemble_c_type_word (d ++ '=' :: (c ++ ';' :: j)) =
        .ok (0b1110000000000000 ||| cb <<< 6 ||| destBits d <<< 3 ||| jb))
    ∧ (∀ (c j : List Char) (cb jb : Nat),
      '=' ∉ c → '=' ∉ j → ';' ∉ c → compBits c = some cb → jmpBits j = some jb →
      trim (c ++ ';' :: j) = c ++ ';' :: j →
      assemble_c_type_word (c ++ ';' :: j) =
        .ok (0b1110000000000000 ||| cb <<< 6 ||| jb))
    ∧ (∀ (d c : List Char) (cb : Nat),
      '=' ∉ d → ';' ∉ c → compBits c = some cb →
      trim (d ++ '=' :: c) = d ++ '=' :: c →
      assemble_c_type_word (d ++ '=' :: c) =
        .ok (0b1110000000000000 ||| cb <<< 6 ||| destBits d <<< 3))
    ∧ (∀ (c : List Char) (cb : Nat),
      '=' ∉ c → ';' ∉ c → compBits c = some cb → trim c = c →
      assemble_c_type_word c = .ok (0b1110000000000000 ||| cb <<< 6))
    ∧ assemble (str "D=D+A;JGT\n") = .ok [0b1110000010010001] := by
  refine ⟨?_, ?_, ?_, ?_, by decide⟩
  · intro d c j cb jb hd hc hcb hjb ht
    simp only [assemble_c_type_word, ht, splitOnFirst_append '=' d _ hd,
      splitOnFirst_append ';' c j hc, hjb, hcb]
  · intro c j cb jb hec hej hc hcb hjb ht
    have hne : ('=' : Char) ∉ c ++ ';' :: j := by
      intro hm
      rcases List.mem_append.mp hm with h | h
      · exact hec h
      · rcases List.mem_cons.mp h with h | h
        · exact absurd h (by decide)
        · exact hej h
    simp only [assemble_c_type_word, ht, splitOnFirst_not_mem '=' _ hne,
      splitOnFirst_append ';' c j hc, hjb, hcb]
    simp [destBits]
  · intro d c cb hd hc hcb ht
    simp only [assemble_c_type_word, ht, splitOnFirst_append '=' d _ hd,
      splitOnFirst_not_mem ';' c hc, hcb]
    simp
  · intro c cb hec hc hcb ht
    have hne : ('=' : Char) ∉ c := hec
    simp only [assemble_c_type_word, ht, splitOnFirst_not_mem '=' _ hne,
      splitOnFirst_not_mem ';' c hc, hcb]
    simp [destBits]

/-- C2 witness: the four shapes evaluated at concrete instructions. -/
theorem c_type_encoding_witness :
    assemble_c_type_word (str "D=D+A;JGT") = .ok 57489
    ∧ assemble_c_type_word (str "0;JMP") = .ok 60039
    ∧ assemble_c_type_word (str "MD=M+1") = .ok 64984
    ∧ assemble_c_type_word (str "D&M") = .ok 61440 := by
  refine ⟨?_, ?_, ?_, ?_⟩
  · have h := c_type_encoding.1 (str "D") (str "D+A") (str "JGT") 2 1
      (by decide) (by decide) (by decide) (by decide) (by decide)
    simpa using h
  · have h := c_type_encoding.2.1 (str "0") (str "JMP") 42 7
      (by decide) (by decide) (by decide) (by decide) (by decide) (by decide)
    simpa using h
  · have h := c_type_encoding.2.2.1 (str "MD") (str "M+1") 119
      (by decide) (by decide) (by decide) (by decide)
    have e1 : str "MD=M+1" = str "MD" ++ '=' :: str "M+1" := by decide
    have e2 : (64984 : Nat) = 57344 ||| 119 <<< 6 ||| destBits (str "MD") <<< 3 := by
      decide
    rw [e1, e2]
    exact h
  · have h := c_type_encoding.2.2.2.1 (str "D&M") 64
      (by decide) (by decide) (by decide) (by decide)
    simpa using h

/-- C3 (amended): when the text after `@` parses as a `usize` (an
optional `+`, digits, value below `2 ^ 64`), values above 32767 abort
the translation and values up to 32767 emit the value itself; when
parsing fails — which includes numerals of `2 ^ 64` or more — the text
is kept as a symbolic placeholder; `@32768` aborts and `@32767` emits
`0111111111111111`. -/
theorem a_type_range_check :
    (∀ (st : Assembler) (v : Nat),
      parseUsize ((trim st.instruction_buffer).drop 1) = some v →
      (v > 32767 → assemble_a_type_instruction st =
        .error "The value is too big to use in an A instruction.")
      ∧ (v ≤ 32767 → assemble_a_type_instruction st =
        .ok { st with output := st.output ++ [.Complete v] }))
    ∧ (∀ st : Assembler,
      parseUsize ((trim st.instruction_buffer).drop 1) = none →
      assemble_a_type_instruction st = .ok { st with
        output := st.output ++
          [.SymbolicAddress ((trim st.instruction_buffer).drop 1)] })
    ∧ assemble (str "@32768\n") =
        .error "The value is too big to use in an A instruction."
    ∧ assemble (str "@32767\n") = .ok [32767] := by
  refine ⟨?_, ?_, by decide, by decide⟩
  · intro st v h
    rw [List.drop_one] at h
    constructor
    · intro hv
      simp [assemble_a_type_instruction, h, hv]
    · intro hv
      simp [assemble_a_type_instruction, h, Nat.not_lt.mpr hv]
  · intro st h
    rw [List.drop_one] at h
    simp [assemble_a_type_instruction, h]

/-- C3 witness: an overflowing, an in-range, and a symbolic A-line. -/
theorem a_type_range_check_witness :
    (assemble_a_type_instruction
      { Assembler.new with instruction_buffer := str "@40000" } =
      .error "The value is too big to use in an A instruction.")
    ∧ (assemble_a_type_instruction
      { Assembler.new with instruction_buffer := str "@21" } =
      .ok { Assembler.new with
            instruction_buffer := str "@21"
            output := [.Complete 21] })
    ∧ (assemble_a_type_instruction
      { Assembler.new with instruction_buffer := str "@sum" } =
      .ok { Assembler.new with
            instruction_buffer := str "@sum"
            output := [.SymbolicAddress (str "sum")] }) :=
  ⟨(a_type_range_check.1
      { Assembler.new with instruction_buffer := str "@40000" } 40000
      (by decide)).1 (by decide),
   (a_type_range_check.1
      { Assembler.new with instruction_buffer := str "@21" } 21
      (by decide)).2 (by decide),
   a_type_range_check.2.1
      { Assembler.new with instruction_buffer := str "@sum" } (by decide)⟩

/-- C3 counterexample: `@18446744073709551616` carries a non-negative
decimal numeral greater than 32767, yet the assembler does not abort: the
numeral overflows `usize` parsing, is kept as a symbol, and is allocated
the variable address 16. -/
theorem a_numeral_overflow_counterexample :
    (str "18446744073709551616").all (fun ch => ch.isDigit) = true
    ∧ natOfDigits (str "18446744073709551616") = 18446744073709551616
    ∧ 32767 < natOfDigits (str "18446744073709551616")
    ∧ assemble (str "@18446744073709551616\n") = .ok [16] := by
  refine ⟨by decide, by decide, by decide, by decide⟩

end Asm
